import Mathlib

/-!
Verification of the DevKit-Pro schema pipeline.

This development gives a shallow embedding of the schema extraction,
diffing and generation core of the DevKit-Pro repository: the input-type
detector, the DDL diff engine, the Protocol Buffer message generator and
the Protocol Buffer metadata pass.  JavaScript strings are modelled as
lists of characters, mutable fields as explicit record updates, and the
statement accumulator of the diff engine as explicitly threaded state.

Functions whose source lives in the repository but outside the provided
tree (the MySQL DDL parser of parsers/mysql-parser.js and the JSON schema
inferer of parsers/json-parser.js) are modelled from the specification and
carry a doc comment saying so.  Behaviour of the JavaScript runtime
builtins used by the code (toLowerCase, trim, regular expressions,
Array/Map/Set operations) is modelled directly; the builtin JSON.parse of
the detector is taken as a parameter.
-/

namespace DevKitPro

/-- Strings are modelled as lists of characters. -/
abbrev Str := List Char

/-- The backtick character, written via its code point. -/
def btick : Char := Char.ofNat 96

/-- The single-quote character, written via its code point. -/
def squote : Char := Char.ofNat 39

/-- The opening curly brace character. -/
def braceOpen : Char := Char.ofNat 123

/-- Whitespace test modelling the JavaScript regex class backslash-s
restricted to the ASCII whitespace characters that occur in the inputs. -/
def isSpace (c : Char) : Bool :=
  c = ' ' || c = '\t' || c = '\n' || c = '\r'

/-- ASCII lower-casing of one character, modelling the effect of the
JavaScript toLowerCase builtin on the ASCII range. -/
def lcChar (c : Char) : Char :=
  if ('A' ≤ c ∧ c ≤ 'Z') then Char.ofNat (c.toNat + 32) else c

/-- ASCII lower-casing of a string, modelling the toLowerCase builtin. -/
def lcStr (s : Str) : Str := s.map lcChar

/-- Case-insensitive prefix test: does the second string start with the
first one, comparing characters after lower-casing. -/
def isPrefixCI : Str → Str → Bool
  | [], _ => true
  | _ :: _, [] => false
  | p :: pt, c :: ct => (lcChar p == lcChar c) && isPrefixCI pt ct

/-- Case-insensitive substring test, modelling a JavaScript regex test for
a fixed literal pattern with the i flag. -/
def hasSubCI (pat : Str) : Str → Bool
  | [] => isPrefixCI pat []
  | c :: tl => isPrefixCI pat (c :: tl) || hasSubCI pat tl

/-- Consume a case-insensitive prefix, returning the rest of the string
after the pattern when it matches. -/
def afterCI : Str → Str → Option Str
  | [], s => some s
  | _ :: _, [] => none
  | p :: pt, c :: ct => if lcChar p == lcChar c then afterCI pt ct else none

/-- Does any suffix of the string satisfy the given position test?  This
models scanning for a regex match at an arbitrary position. -/
def scanAny (p : Str → Bool) : Str → Bool
  | [] => p []
  | c :: tl => p (c :: tl) || scanAny p tl

/-- Both-ends whitespace trim, modelling the JavaScript trim builtin. -/
def trimStr (s : Str) : Str :=
  ((s.dropWhile (fun c => isSpace c)).reverse.dropWhile (fun c => isSpace c)).reverse

/-- Decimal rendering of a natural number, modelling JavaScript number to
string conversion in template literals. -/
def natStr (n : Nat) : Str := Nat.toDigits 10 n

/-- Right padding with spaces to a given width, modelling padEnd. -/
def padEnd (s : Str) (n : Nat) : Str := s ++ List.replicate (n - s.length) ' '

/-- Split a string into its lines at newline characters, with an explicit
accumulator; models the per-line view taken by multiline regexes. -/
def splitLinesAux : Str → Str → List Str
  | [], acc => [acc.reverse]
  | c :: tl, acc =>
    if c = '\n' then acc.reverse :: splitLinesAux tl [] else splitLinesAux tl (c :: acc)

/-- Split a string into its lines at newline characters. -/
def splitLines (s : Str) : List Str := splitLinesAux s []

/-- Maximum length of a list of strings, with 0 for the empty list; this
models the Math.max call over the mapped lengths with the extra 0. -/
def maxLen (l : List Str) : Nat := l.foldl (fun m s => Nat.max m s.length) 0

/-! Protocol Buffer message generator, from the source file that defines
generateMessage, formatFieldType, mapTypeToProtobuf and toSnakeCase. -/

/-- One parsed field as consumed by the Protocol Buffer generator.  The
JavaScript objects are duck-typed; absent string properties are modelled
by the empty string (both are falsy where the generator tests them) and
the absent protoFieldNumber by 0 (also falsy where tested). -/
structure PField where
  name : Str
  jsonName : Str
  goType : Str
  protoFieldNumber : Nat
  isRepeated : Bool
  protoElementType : Str
deriving DecidableEq, Repr

/-- Message data consumed by generateMessage: a name, the fields, and the
nested messages used in inline mode. -/
inductive MessageData where
  | mk (name : Str) (fields : List PField) (nested : List MessageData)

/-- Generation options of the Protocol Buffer generator. -/
structure GenOptions where
  numericIntType : Str
  numericFloatType : Str
  nestedMode : Str
deriving DecidableEq

/-- Default generation options of the source (int32, float, separate). -/
def defaultGenOptions : GenOptions :=
  { numericIntType := "int32".data
    numericFloatType := "float".data
    nestedMode := "separate".data }

/-- Map a Go type string to a Protocol Buffer type, from mapTypeToProtobuf:
a fixed lookup table with fall-through returning the input unchanged. -/
def mapTypeToProtobuf (goType : Str) (opts : GenOptions) : Str :=
  if goType = ("string".data) then "string".data
  else if goType = ("int".data) then opts.numericIntType
  else if goType = ("int64".data) then "int64".data
  else if goType = ("int32".data) then "int32".data
  else if goType = ("float64".data) then opts.numericFloatType
  else if goType = ("float32".data) then "float".data
  else if goType = ("bool".data) then "bool".data
  else if goType = ("interface\x7b\x7d".data) then "string".data
  else goType

/-- Format the type column of one field, from formatFieldType: repeated
fields are rendered with the repeated keyword and their element type. -/
def formatFieldType (f : PField) (opts : GenOptions) : Str :=
  if f.isRepeated then ("repeated ".data) ++ mapTypeToProtobuf f.protoElementType opts
  else mapTypeToProtobuf f.goType opts

/-- Convert a field name to snake case, from toSnakeCase: every upper-case
letter is preceded by an underscore, the whole string is lower-cased, and
one leading underscore is stripped. -/
def toSnakeCase (s : Str) : Str :=
  let expanded := s.flatMap (fun c => if ('A' ≤ c ∧ c ≤ 'Z') then ['_', c] else [c])
  match expanded.map lcChar with
  | '_' :: tl => tl
  | l => l

/-- The emitted name of one field, from the expression that chooses the
jsonName property and falls back to the name property when it is falsy. -/
def emittedFieldName (f : PField) : Str :=
  if f.jsonName = [] then f.name else f.jsonName

/-- Render the field lines of a message: each line indents two spaces,
pads the type and name columns, and appends the field number (falling
back to the positional index plus one when the stored number is falsy). -/
def renderFieldLines : List Str → List Str → List PField → Nat → Nat → Nat → Str
  | t :: ts, n :: ns, f :: fs, maxT, maxN, i =>
    ("  ".data) ++ padEnd t maxT ++ (" ".data) ++ padEnd n maxN ++ (" = ".data) ++
      natStr (if f.protoFieldNumber = 0 then i + 1 else f.protoFieldNumber) ++ (";\n".data) ++
      renderFieldLines ts ns fs maxT maxN (i + 1)
  | _, _, _, _, _, _ => []

/-- Indent a rendered nested message by two spaces per line, modelling the
split, map and join chain of the source. -/
def indentNested (code : Str) : Str :=
  List.intercalate ("\n".data) ((splitLines code).map (fun l => ("  ".data) ++ l))

/-- Generate one Protocol Buffer message, from generateMessage.  The fuel
argument bounds the recursion depth into nested messages (the JavaScript
recursion is bounded by the nesting structure); it is never exhausted when
called with the size of the message data. -/
def generateMessage : Nat → MessageData → GenOptions → Str
  | 0, _, _ => []
  | fuel + 1, MessageData.mk name fields nested, opts =>
    let nestedPart :=
      if opts.nestedMode = ("inline".data) then
        nested.foldl (fun acc m => acc ++ indentNested (generateMessage fuel m opts) ++ ("\n".data)) []
      else []
    let protoTypes := fields.map (fun f => formatFieldType f opts)
    let fieldNames := fields.map emittedFieldName
    let maxT := maxLen protoTypes
    let maxN := maxLen fieldNames
    ("// ".data) ++ name ++ (" message\n".data) ++
      ("message ".data) ++ name ++ (" \x7b\n".data) ++
      nestedPart ++
      renderFieldLines protoTypes fieldNames fields maxT maxN 0 ++
      ("\x7d\n".data)

/-- The concrete message data of the failing input: one message named User
with a single string field whose JSON key is the camel-case userName. -/
def c1Input : MessageData :=
  MessageData.mk ("User".data)
    [{ name := "UserName".data
       jsonName := "userName".data
       goType := "string".data
       protoFieldNumber := 0
       isRepeated := false
       protoElementType := [] }] []

/-! Input type detector, from detectInputType of the source. -/

/-- Position test for the regex CREATE backslash-s plus TABLE with the i
flag: the suffix starts with CREATE, then at least one whitespace
character, then TABLE, all case-insensitively. -/
def createTableAt (s : Str) : Bool :=
  match afterCI ("create".data) s with
  | none => false
  | some r =>
    match r with
    | [] => false
    | c :: tl => isSpace c && isPrefixCI ("table".data) (tl.dropWhile (fun d => isSpace d))

/-- Test for the CREATE TABLE regex anywhere in the string. -/
def hasCreateTable (s : Str) : Bool := scanAny createTableAt s

/-- Position test for the regex COMMENT backslash-s star quote: COMMENT,
optional whitespace, then a single quote. -/
def commentQuoteAt (s : Str) : Bool :=
  match afterCI ("comment".data) s with
  | none => false
  | some r =>
    match r.dropWhile (fun d => isSpace d) with
    | q :: _ => q = squote
    | [] => false

/-- Word-character test for the regex class backslash-w. -/
def isWordChar (c : Char) : Bool :=
  ('a' ≤ c && c ≤ 'z') || ('A' ≤ c && c ≤ 'Z') || ('0' ≤ c && c ≤ '9') || c = '_'

/-- Position test for AUTOINCREMENT followed by no word character, from
the regex AUTOINCREMENT with a negative lookahead for backslash-w. -/
def autoincrementAt (s : Str) : Bool :=
  match afterCI ("autoincrement".data) s with
  | none => false
  | some r =>
    match r with
    | [] => true
    | c :: _ => !(isWordChar c)

/-- PostgreSQL marker test of the detector: the alternation SERIAL,
BIGSERIAL, UUID, TEXT with array brackets, JSONB, TIMESTAMPTZ. -/
def pgMarker (s : Str) : Bool :=
  hasSubCI ("serial".data) s || hasSubCI ("bigserial".data) s || hasSubCI ("uuid".data) s ||
    hasSubCI ("text[]".data) s || hasSubCI ("jsonb".data) s || hasSubCI ("timestamptz".data) s

/-- MySQL marker test of the detector: AUTO_INCREMENT, TINYINT, or an
inline COMMENT followed by a quoted literal. -/
def mysqlMarker (s : Str) : Bool :=
  hasSubCI ("auto_increment".data) s || hasSubCI ("tinyint".data) s || scanAny commentQuoteAt s

/-- SQLite marker test of the detector: AUTOINCREMENT not followed by a
word character. -/
def sqliteMarker (s : Str) : Bool := scanAny autoincrementAt s

/-- Identifier start test for the character class letter or underscore. -/
def isIdentStart (c : Char) : Bool :=
  ('a' ≤ c && c ≤ 'z') || ('A' ≤ c && c ≤ 'Z') || c = '_'

/-- Identifier continuation test: letter, digit or underscore. -/
def isIdentChar (c : Char) : Bool := isIdentStart c || ('0' ≤ c && c ≤ '9')

/-- TOML section name character: identifier character, dot or hyphen. -/
def isTomlNameChar (c : Char) : Bool := isIdentChar c || c = '.' || c = '-'

/-- Line test for the YAML key pattern: identifier, colon, then a
non-empty remainder. -/
def yamlKeyLine (l : Str) : Bool :=
  match l with
  | [] => false
  | c :: tl =>
    isIdentStart c &&
      (match tl.dropWhile (fun d => isIdentChar d) with
       | ':' :: r => !r.isEmpty
       | _ => false)

/-- Line test for the YAML list item pattern: optional whitespace, a
hyphen, at least one whitespace character, then a non-empty remainder. -/
def yamlListLine (l : Str) : Bool :=
  match l.dropWhile (fun d => isSpace d) with
  | '-' :: c :: tl => isSpace c && !tl.isEmpty
  | _ => false

/-- Line test for a TOML section header: optional whitespace, an open
bracket, a section name, a close bracket, then only whitespace. -/
def tomlSectionLine (l : Str) : Bool :=
  match l.dropWhile (fun d => isSpace d) with
  | '[' :: c :: tl =>
    isIdentStart c &&
      (match tl.dropWhile (fun d => isTomlNameChar d) with
       | ']' :: r => (r.dropWhile (fun d => isSpace d)).isEmpty
       | _ => false)
  | _ => false

/-- Line test for a TOML key assignment: identifier, optional whitespace,
an equals sign, then a non-empty remainder. -/
def tomlKvLine (l : Str) : Bool :=
  match l with
  | [] => false
  | c :: tl =>
    isIdentStart c &&
      (match (tl.dropWhile (fun d => isIdentChar d)).dropWhile (fun d => isSpace d) with
       | '=' :: r => !r.isEmpty
       | _ => false)

/-- Position test for the XML closing-tag regex: a less-than sign, a
slash, then a letter. -/
def xmlCloseTagAt (s : Str) : Bool :=
  match s with
  | '<' :: '/' :: c :: _ => ('a' ≤ c && c ≤ 'z') || ('A' ≤ c && c ≤ 'Z')
  | _ => false

/-- YAML branch condition of the detector: the trimmed text does not start
with a brace or bracket, some line matches a YAML pattern, and the text
either has no equals sign or has a colon. -/
def yamlCheck (tr : Str) : Bool :=
  (match tr with
   | c :: _ => !(c = braceOpen || c = '[')
   | [] => true) &&
    ((splitLines tr).any (fun l => yamlKeyLine l) || (splitLines tr).any (fun l => yamlListLine l)) &&
    (!tr.contains '=' || tr.contains ':')

/-- TOML branch condition of the detector: some line is a section header
or a key assignment, the text has an equals sign and no colon-space. -/
def tomlCheck (tr : Str) : Bool :=
  ((splitLines tr).any (fun l => tomlSectionLine l) || (splitLines tr).any (fun l => tomlKvLine l)) &&
    (tr.contains '=' && !hasSubCI (": ".data) tr)

/-- XML branch condition of the detector: the text starts with an XML
prolog, or starts with a less-than sign, ends with a greater-than sign and
contains a closing tag. -/
def xmlCheck (tr : Str) : Bool :=
  List.isPrefixOf ("<?xml".data) tr ||
    ((match tr with | '<' :: _ => true | _ => false) &&
      (tr.getLast? == some '>') && scanAny xmlCloseTagAt tr)

/-- Input type detector, from detectInputType.  The jsonObjCheck parameter
models the builtin JSON.parse try block of the JSON branch: it holds when
JSON.parse succeeds and yields a non-null object or array. -/
def detectInputType (jsonObjCheck : Str → Bool) (input : Str) : Str :=
  let trimmed := trimStr input
  if hasCreateTable trimmed then
    if pgMarker trimmed then "postgresql".data
    else if mysqlMarker trimmed then "mysql".data
    else if sqliteMarker trimmed then "sqlite".data
    else "mysql".data
  else if jsonObjCheck trimmed then "json".data
  else if yamlCheck trimmed then "yaml".data
  else if tomlCheck trimmed then "toml".data
  else if xmlCheck trimmed then "xml".data
  else "unknown".data

/-! MySQL DDL parser.  The repository loads it from parsers/mysql-parser.js,
which is not part of the provided tree; only its callers are.  It is
therefore modelled from the specification, section 4.2. -/

/-- One canonical field of a parsed schema, with the properties the diff
engine reads: name, raw type string, nullability, auto-increment flag,
unsigned flag, primary-key flag and optional comment. -/
structure SqlField where
  name : Str
  type : Str
  nullable : Bool
  isPrimaryKey : Bool
  isAutoIncrement : Bool
  isUnsigned : Bool
  comment : Option Str
deriving DecidableEq, Repr

/-- A canonical schema: a table name and an ordered field list. -/
structure SqlSchema where
  tableName : Str
  fields : List SqlField
deriving DecidableEq, Repr

/-- Strip dialect quoting from a token by removing backticks; modelled
from the spec: names are extracted stripping backtick quoting. -/
def stripTicks (s : Str) : Str := s.filter (fun c => c ≠ btick)

/-- Position test for CREATE, whitespace, TABLE, returning the rest after
TABLE; modelled from the spec: the parser fails when no CREATE TABLE
statement is found. -/
def createTableAfter (s : Str) : Option Str :=
  match afterCI ("create".data) s with
  | none => none
  | some r =>
    match r with
    | [] => none
    | c :: tl =>
      if isSpace c then afterCI ("table".data) (tl.dropWhile (fun d => isSpace d)) else none

/-- Scan for the first CREATE TABLE occurrence, returning the rest of the
string after the TABLE keyword. -/
def findCreateTable : Str → Option Str
  | [] => none
  | c :: tl =>
    match createTableAfter (c :: tl) with
    | some r => some r
    | none => findCreateTable tl

/-- Depth-tracked scan for the parenthesis closing the column list; none
when the list is unbalanced.  Modelled from the spec: the parse fails when
the column list cannot be balanced. -/
def takeBody : Str → Nat → Str → Option Str
  | [], _, _ => none
  | c :: tl, depth, acc =>
    if c = ')' then
      if depth = 0 then some acc.reverse else takeBody tl (depth - 1) (c :: acc)
    else if c = '(' then takeBody tl (depth + 1) (c :: acc)
    else takeBody tl depth (c :: acc)

/-- Depth-tracked split of the column list on commas that are not nested
inside parentheses; modelled from the spec: splitting must not break
DECIMAL(10,2) or ENUM literals. -/
def splitDepthAux : Str → Nat → Str → List Str
  | [], _, acc => [acc.reverse]
  | c :: tl, depth, acc =>
    if c = ',' ∧ depth = 0 then acc.reverse :: splitDepthAux tl 0 []
    else splitDepthAux tl
      (if c = '(' then depth + 1 else if c = ')' then depth - 1 else depth) (c :: acc)

/-- Split a column list body into column definition chunks. -/
def splitDepth (s : Str) : List Str := splitDepthAux s 0 []

/-- Read the raw type token of a column: characters up to the first
whitespace at parenthesis depth zero, so DECIMAL(10, 2) stays one token.
Returns the token and the rest. -/
def typeSplitAux : Str → Nat → Str → Str × Str
  | [], _, acc => (acc.reverse, [])
  | c :: tl, depth, acc =>
    if depth = 0 ∧ isSpace c then (acc.reverse, c :: tl)
    else typeSplitAux tl
      (if c = '(' then depth + 1 else if c = ')' then depth - 1 else depth) (c :: acc)

/-- Extract a trailing COMMENT between single quotes at one position. -/
def commentAt (s : Str) : Option Str :=
  match afterCI ("comment".data) s with
  | none => none
  | some r =>
    match r.dropWhile (fun d => isSpace d) with
    | q :: rest => if q = squote then some (rest.takeWhile (fun c => c ≠ squote)) else none
    | [] => none

/-- Scan a column definition for its COMMENT clause. -/
def findComment : Str → Option Str
  | [] => none
  | c :: tl =>
    match commentAt (c :: tl) with
    | some com => some com
    | none => findComment tl

/-- Keywords starting a table-level constraint line; such lines describe
no column and are skipped.  Modelled from the spec: per-column failures
and non-column lines are skipped rather than aborting the parse. -/
def constraintStarters : List Str :=
  [ "primary".data, "key".data, "unique".data, "index".data,
    "constraint".data, "foreign".data ]

/-- Parse one column definition chunk into a field; none when the chunk is
empty or is a table-level constraint.  Modelled from the spec: name with
quoting stripped, raw type token, NOT NULL, AUTO_INCREMENT, UNSIGNED and
PRIMARY KEY flags, and a trailing COMMENT literal. -/
def parseColumn (chunk : Str) : Option SqlField :=
  let l := trimStr chunk
  if l = [] then none
  else
    let tok := l.takeWhile (fun c => !(isSpace c))
    let name := stripTicks tok
    if constraintStarters.contains (lcStr name) then none
    else if name = [] then none
    else
      let rest := trimStr (l.dropWhile (fun c => !(isSpace c)))
      let ts := typeSplitAux rest 0 []
      let flagsPart := ts.2
      some
        { name := name
          type := ts.1
          nullable := !(hasSubCI ("not null".data) flagsPart)
          isPrimaryKey := hasSubCI ("primary key".data) flagsPart
          isAutoIncrement := hasSubCI ("auto_increment".data) flagsPart
          isUnsigned := hasSubCI ("unsigned".data) flagsPart
          comment := findComment flagsPart }

/-- Drop later fields whose lower-cased name repeats an earlier one, so
the parsed schema satisfies the specified invariant that field names are
unique under case-insensitive comparison (spec, section 3). -/
def dedupeFields : List SqlField → List Str → List SqlField
  | [], _ => []
  | f :: tl, seen =>
    if seen.contains (lcStr f.name) then dedupeFields tl seen
    else f :: dedupeFields tl (lcStr f.name :: seen)

/-- Modelled from the spec: parseMySQLDDL of parsers/mysql-parser.js, which
is not part of the provided tree.  It extracts the table name after CREATE
TABLE, balances the column list with depth tracking, splits it on
top-level commas, parses each column best-effort, and keeps field names
unique case-insensitively.  Parse errors (no CREATE TABLE, or an
unbalanced column list) are collapsed to none, as the diff engine drops
the error message anyway. -/
def parseMySQLDDL (ddl : Str) : Option SqlSchema :=
  match findCreateTable ddl with
  | none => none
  | some afterTable =>
    let r := afterTable.dropWhile (fun c => isSpace c)
    let nameTok := r.takeWhile (fun c => !(isSpace c) && c ≠ '(')
    let tableName := stripTicks nameTok
    let r2 := (r.dropWhile (fun c => !(isSpace c) && c ≠ '(')).dropWhile (fun c => isSpace c)
    match r2 with
    | '(' :: body =>
      match takeBody body 0 [] with
      | none => none
      | some colsBody =>
        some
          { tableName := tableName
            fields := dedupeFields ((splitDepth colsBody).filterMap parseColumn) [] }
    | _ => none

/-! DDL diff engine, from the source file defining class DiffEngine.  The
statements instance field is modelled as explicitly threaded state. -/

/-- The comment returned when a schema cannot be parsed. -/
def cannotParseMsg : Str := "-- 无法解析 DDL，请确保格式正确".data

/-- The comment returned when the two schemas produce no statement. -/
def noopMsg : Str := "-- 两个 DDL 完全一致，无需修改".data

/-- The first leading comment emitted when the table names differ. -/
def mismatchMsg1 (target source : SqlSchema) : Str :=
  ("-- 表名不同: ".data) ++ target.tableName ++ (" vs ".data) ++ source.tableName

/-- The second leading comment emitted when the table names differ. -/
def mismatchMsg2 (target : SqlSchema) : Str :=
  ("-- 假设您想修改表: ".data) ++ target.tableName

/-- Wrapper around the MySQL parser, from parseDDL: empty or blank input
and parse errors yield no schema.  The fullDefinition enrichment of the
source is not modelled because nothing reads it (getRawDefinitionFromSource
recomputes the reconstruction instead). -/
def parseDDL (ddl : Str) : Option SqlSchema :=
  if trimStr ddl = [] then none else parseMySQLDDL ddl

/-- The comment of a field with an absent comment read as the empty
string, from the two comment-or-empty fallbacks of the source. -/
def commentOrEmpty (f : SqlField) : Str := f.comment.getD []

/-- Reconstruct a column definition from a parsed field, from
reconstructDefinition: type, then UNSIGNED, NOT NULL, AUTO_INCREMENT and
COMMENT clauses in that order. -/
def reconstructDefinition (f : SqlField) : Str :=
  f.type ++
    (if f.isUnsigned then (" UNSIGNED".data) else []) ++
    (if !f.nullable then (" NOT NULL".data) else []) ++
    (if f.isAutoIncrement then (" AUTO_INCREMENT".data) else []) ++
    (if commentOrEmpty f ≠ [] then
      (" COMMENT '".data) ++ commentOrEmpty f ++ ("'".data) else [])

/-- Compare two matched fields, from isDifferent: case-insensitive type
string, nullability, auto-increment flag, and comment with absence read as
the empty string.  The isUnsigned flag is not compared. -/
def isDifferent (tF sF : SqlField) : Bool :=
  (lcStr tF.type != lcStr sF.type) ||
    (tF.nullable != sF.nullable) ||
    (tF.isAutoIncrement != sF.isAutoIncrement) ||
    (commentOrEmpty tF != commentOrEmpty sF)

/-- The ADD COLUMN statement for one source field. -/
def mkAdd (tn : Str) (f : SqlField) : Str :=
  ("ALTER TABLE `".data) ++ tn ++ ("` ADD COLUMN `".data) ++ f.name ++ ("` ".data) ++
    reconstructDefinition f ++ (";".data)

/-- The MODIFY COLUMN statement for one source field. -/
def mkModify (tn : Str) (f : SqlField) : Str :=
  ("ALTER TABLE `".data) ++ tn ++ ("` MODIFY COLUMN `".data) ++ f.name ++ ("` ".data) ++
    reconstructDefinition f ++ (";".data)

/-- The DROP COLUMN statement for one target field. -/
def mkDrop (tn : Str) (f : SqlField) : Str :=
  ("ALTER TABLE `".data) ++ tn ++ ("` DROP COLUMN `".data) ++ f.name ++ ("`;".data)

/-- The case-insensitive name set of a field list, from the lowered-name
Sets built by the column checks. -/
def lcNames (fields : List SqlField) : List Str := fields.map (fun f => lcStr f.name)

/-- Lookup in the case-insensitive name map of the target fields, from the
Map constructor of checkModifiedColumns; with duplicate keys a JavaScript
Map keeps the last entry. -/
def mapGet (fields : List SqlField) (key : Str) : Option SqlField :=
  (fields.filter (fun f => lcStr f.name == key)).getLast?

/-- Push ADD COLUMN statements for the source fields missing from the
target, from checkNewColumns, in source order onto the accumulator. -/
def checkNewColumns (tn : Str) (targetFields sourceFields : List SqlField)
    (statements : List Str) : List Str :=
  sourceFields.foldl
    (fun acc sF =>
      if (lcNames targetFields).contains (lcStr sF.name) then acc else acc ++ [mkAdd tn sF])
    statements

/-- Push MODIFY COLUMN statements for the source fields present in the
target with a differing definition, from checkModifiedColumns. -/
def checkModifiedColumns (tn : Str) (targetFields sourceFields : List SqlField)
    (statements : List Str) : List Str :=
  sourceFields.foldl
    (fun acc sF =>
      match mapGet targetFields (lcStr sF.name) with
      | some tF => if isDifferent tF sF then acc ++ [mkModify tn sF] else acc
      | none => acc)
    statements

/-- Push DROP COLUMN statements for the target fields missing from the
source, from checkRemovedColumns, in target order. -/
def checkRemovedColumns (tn : Str) (targetFields sourceFields : List SqlField)
    (statements : List Str) : List Str :=
  targetFields.foldl
    (fun acc tF =>
      if (lcNames sourceFields).contains (lcStr tF.name) then acc else acc ++ [mkDrop tn tF])
    statements

/-- Main entry point of the diff engine, from generateDiff.  The first
argument is the statements field of the engine instance before the call;
it is reset at entry, mirroring the assignment this.statements = [].  The
result is the statements field after the call paired with the returned
list. -/
def generateDiff (engineStatements : List Str) (targetDDL sourceDDL : Str) :
    List Str × List Str :=
  let statements : List Str := []
  match parseDDL targetDDL, parseDDL sourceDDL with
  | none, _ => (statements, [cannotParseMsg])
  | some _, none => (statements, [cannotParseMsg])
  | some target, some source =>
    let statements :=
      if target.tableName != source.tableName then
        statements ++ [mismatchMsg1 target source, mismatchMsg2 target]
      else statements
    let tn := target.tableName
    let statements := checkNewColumns tn target.fields source.fields statements
    let statements := checkModifiedColumns tn target.fields source.fields statements
    let statements := checkRemovedColumns tn target.fields source.fields statements
    if statements = [] then (statements, [noopMsg]) else (statements, statements)

/-- The shared singleton instance starts with an empty statements list. -/
def diffEngineInit : List Str := []

/-- Run a sequence of generateDiff calls on the shared engine instance,
threading its statements field from call to call and collecting each
returned list. -/
def runDiffCalls : List Str → List (Str × Str) → List (List Str)
  | _, [] => []
  | st, (t, s) :: tl =>
    let r := generateDiff st t s
    r.2 :: runDiffCalls r.1 tl

/-! Declarative characterizations of the three column checks, used to
state and prove the ordering and membership claims. -/

/-- The decision of checkNewColumns for one source field. -/
def addFun (tn : Str) (targetFields : List SqlField) (sF : SqlField) : Option Str :=
  if (lcNames targetFields).contains (lcStr sF.name) then none else some (mkAdd tn sF)

/-- The decision of checkModifiedColumns for one source field. -/
def modifyFun (tn : Str) (targetFields : List SqlField) (sF : SqlField) : Option Str :=
  match mapGet targetFields (lcStr sF.name) with
  | some tF => if isDifferent tF sF then some (mkModify tn sF) else none
  | none => none

/-- The decision of checkRemovedColumns for one target field. -/
def dropFun (tn : Str) (sourceFields : List SqlField) (tF : SqlField) : Option Str :=
  if (lcNames sourceFields).contains (lcStr tF.name) then none else some (mkDrop tn tF)

/-- All ADD COLUMN statements, in source field order. -/
def addStatements (tn : Str) (targetFields sourceFields : List SqlField) : List Str :=
  sourceFields.filterMap (addFun tn targetFields)

/-- All MODIFY COLUMN statements, in source field order. -/
def modifyStatements (tn : Str) (targetFields sourceFields : List SqlField) : List Str :=
  sourceFields.filterMap (modifyFun tn targetFields)

/-- All DROP COLUMN statements, in target field order. -/
def dropStatements (tn : Str) (targetFields sourceFields : List SqlField) : List Str :=
  targetFields.filterMap (dropFun tn sourceFields)

/-- The leading table-name-mismatch comments, present exactly when the
two table names differ. -/
def headerComments (target source : SqlSchema) : List Str :=
  if target.tableName != source.tableName then [mismatchMsg1 target source, mismatchMsg2 target]
  else []

/-- The full statement list accumulated by one generateDiff call on two
parsed schemas: leading comments, then additions in source order, then
modifications in source order, then removals in target order. -/
def diffStatements (target source : SqlSchema) : List Str :=
  headerComments target source ++
    addStatements target.tableName target.fields source.fields ++
    modifyStatements target.tableName target.fields source.fields ++
    dropStatements target.tableName target.fields source.fields

/-! Invariants of the parsed schema and discrimination lemmas between the
generated statement strings. -/

/-- Head character of a string, used to tell statement kinds apart. -/
def headChar : Str → Option Char
  | c :: _ => some c
  | [] => none

/-- Third character of a string, used to tell ALTER statement kinds apart
after the shared prefix is cancelled. -/
def thirdChar : Str → Option Char
  | _ :: _ :: c :: _ => some c
  | _ => none

/-- The concrete DDL used by the self-diff witness. -/
def c3Ddl : Str := "CREATE TABLE t (id INT PRIMARY KEY, name VARCHAR(50))".data

/-- The schema the modelled parser extracts from the witness DDL. -/
def c3Schema : SqlSchema :=
  { tableName := "t".data
    fields :=
      [ { name := "id".data, type := "INT".data, nullable := true, isPrimaryKey := true
          isAutoIncrement := false, isUnsigned := false, comment := none },
        { name := "name".data, type := "VARCHAR(50)".data, nullable := true
          isPrimaryKey := false, isAutoIncrement := false, isUnsigned := false
          comment := none } ] }

/-- The target DDL of the diff witness (the spec example). -/
def c4Target : Str := "CREATE TABLE t (id INT PRIMARY KEY, name VARCHAR(50))".data

/-- The source DDL of the diff witness (the spec example). -/
def c4Source : Str :=
  "CREATE TABLE t (id INT PRIMARY KEY, name VARCHAR(100), age INT)".data

/-- The schema the modelled parser extracts from the witness source. -/
def c4SourceSchema : SqlSchema :=
  { tableName := "t".data
    fields :=
      [ { name := "id".data, type := "INT".data, nullable := true, isPrimaryKey := true
          isAutoIncrement := false, isUnsigned := false, comment := none },
        { name := "name".data, type := "VARCHAR(100)".data, nullable := true
          isPrimaryKey := false, isAutoIncrement := false, isUnsigned := false
          comment := none },
        { name := "age".data, type := "INT".data, nullable := true
          isPrimaryKey := false, isAutoIncrement := false, isUnsigned := false
          comment := none } ] }

/-- The target schema of the modify witness. -/
def c5TargetSchema : SqlSchema :=
  { tableName := "t".data
    fields :=
      [ { name := "id".data, type := "INT".data, nullable := true, isPrimaryKey := true
          isAutoIncrement := false, isUnsigned := false, comment := none },
        { name := "name".data, type := "VARCHAR(50)".data, nullable := true
          isPrimaryKey := false, isAutoIncrement := false, isUnsigned := false
          comment := none } ] }

/-- The target DDL of the unsigned witness. -/
def c10Target : Str := "CREATE TABLE t (id INT)".data

/-- The source DDL of the unsigned witness: the only change is UNSIGNED. -/
def c10Source : Str := "CREATE TABLE t (id INT UNSIGNED)".data

/-- The schema parsed from the unsigned witness target. -/
def c10TargetSchema : SqlSchema :=
  { tableName := "t".data
    fields :=
      [ { name := "id".data, type := "INT".data, nullable := true, isPrimaryKey := false
          isAutoIncrement := false, isUnsigned := false, comment := none } ] }

/-- The schema parsed from the unsigned witness source. -/
def c10SourceSchema : SqlSchema :=
  { tableName := "t".data
    fields :=
      [ { name := "id".data, type := "INT".data, nullable := true, isPrimaryKey := false
          isAutoIncrement := false, isUnsigned := true, comment := none } ] }

/-- A returned list is a single explanatory comment line when it is one
string starting with the comment marker. -/
def singleCommentLine (l : List Str) : Prop :=
  ∃ c, l = [c] ∧ List.IsPrefix ("-- ".data) c

/-! JSON schema inference and Protocol Buffer metadata.  parseJSON lives
in parsers/json-parser.js, which is not part of the provided tree, and is
modelled from the specification, section 4.3; the builtin JSON.parse text
decoding is taken as a parameter.  addProtobufMetadata and
parseJSONForProtobuf are embedded from their source file. -/

mutual

/-- A decoded JSON value.  Numeric payloads are not carried: the inference
depends only on whether the number has a fractional or exponent part, and
JavaScript float values are not modelled. -/
inductive JValue where
  | jnull
  | jbool (b : Bool)
  | jnum (isInteger : Bool)
  | jstr (s : Str)
  | jarr (elems : JArray)
  | jobj (entries : JObject)

/-- A decoded JSON array. -/
inductive JArray where
  | nil
  | cons (v : JValue) (tl : JArray)

/-- The property list of a decoded JSON object, in declaration order. -/
inductive JObject where
  | nil
  | cons (key : Str) (v : JValue) (tl : JObject)

end

/-- One named nested schema collected by the JSON inference. -/
structure NestedStruct where
  name : Str
  fields : List PField
deriving DecidableEq, Repr

/-- The result shape of parseJSON: root struct name, fields, flat list of
named nested schemas, and an optional error. -/
structure ParsedJSON where
  structName : Str
  fields : List PField
  nestedStructs : List NestedStruct
  error : Option Str
deriving DecidableEq, Repr

/-- ASCII upper-casing of one character, modelling toUpperCase. -/
def ucChar (c : Char) : Char :=
  if ('a' ≤ c ∧ c ≤ 'z') then Char.ofNat (c.toNat - 32) else c

/-- Capitalize one word: first character upper-cased, rest lower-cased. -/
def capWord (w : Str) : Str :=
  match w with
  | [] => []
  | c :: tl => ucChar c :: lcStr tl

/-- Split a string at underscores, with an explicit accumulator. -/
def splitUndersAux : Str → Str → List Str
  | [], acc => [acc.reverse]
  | c :: tl, acc =>
    if c = '_' then acc.reverse :: splitUndersAux tl [] else splitUndersAux tl (c :: acc)

/-- Convert snake case or camel case to PascalCase for message and struct
names, from toPascalCase: split at underscores, capitalize each word, join
with nothing. -/
def toPascalCase (s : Str) : Str :=
  if s = [] then []
  else ((splitUndersAux s []).map capWord).foldl (fun acc w => acc ++ w) []

/-- Search for a free struct name of the form base followed by a numeric
suffix, used when the base name collides. -/
def resolveNameGo (base : Str) (used : List Str) : Nat → Nat → Str
  | 0, n => base ++ natStr n
  | fuel + 1, n =>
    if used.contains (base ++ natStr n) then resolveNameGo base used fuel (n + 1)
    else base ++ natStr n

/-- Modelled from the spec: a generated nested struct name is collision
resolved by appending a numeric suffix. -/
def resolveName (base : Str) (used : List Str) : Str :=
  if used.contains base then resolveNameGo base used (used.length + 1) 2 else base

mutual

/-- Modelled from the spec: depth-first inference of the Go-like type of
one JSON value (section 4.3 with the Go-like mapping of section 4.4):
null maps to the empty interface, booleans to bool, integral numbers to
int and other numbers to float64, strings to string; an array takes a
slice of its first non-null element type; an object registers a named
nested schema and is referenced by its generated PascalCase name.
Returns the type, the nested schemas collected, and the updated used-name
list. -/
def inferValue : Str → JValue → List Str → Str × List NestedStruct × List Str
  | _, JValue.jnull, used => (("interface\x7b\x7d".data), [], used)
  | _, JValue.jbool _, used => (("bool".data), [], used)
  | _, JValue.jnum isInteger, used =>
    (if isInteger then ("int".data) else ("float64".data), [], used)
  | _, JValue.jstr _, used => (("string".data), [], used)
  | key, JValue.jarr elems, used =>
    let r := inferElem key elems used
    (("[]".data) ++ r.1, r.2.1, r.2.2)
  | key, JValue.jobj entries, used =>
    let nm := resolveName (toPascalCase key) used
    let r := inferObject entries (nm :: used)
    (nm, { name := nm, fields := r.1 } :: r.2.1, r.2.2)

/-- Modelled from the spec: the element type of an array is inferred from
its first non-null element; an empty or all-null array gets the unknown
element type. -/
def inferElem : Str → JArray → List Str → Str × List NestedStruct × List Str
  | _, JArray.nil, used => (("interface\x7b\x7d".data), [], used)
  | key, JArray.cons JValue.jnull tl, used => inferElem key tl used
  | key, JArray.cons v _, used => inferValue key v used

/-- Modelled from the spec: inference over the properties of one object in
declaration order, collecting nested schemas into a flat side list. -/
def inferObject : JObject → List Str → List PField × List NestedStruct × List Str
  | JObject.nil, used => ([], [], used)
  | JObject.cons k v tl, used =>
    let r1 := inferValue k v used
    let f : PField :=
      { name := toPascalCase k, jsonName := k, goType := r1.1
        protoFieldNumber := 0, isRepeated := false, protoElementType := [] }
    let r2 := inferObject tl r1.2.2
    (f :: r2.1, r1.2.1 ++ r2.2.1, r2.2.2)

end

/-- Modelled from the spec: parseJSON of parsers/json-parser.js.  The
decode parameter models the builtin JSON.parse together with its try
block: none when JSON.parse throws.  A decoded object root is inferred
into fields and a flat nested schema list; a non-object root or a decode
failure is returned as an error value. -/
def parseJSON (decode : Str → Option JValue) (jsonStr : Str) (rootName : Str) : ParsedJSON :=
  match decode jsonStr with
  | none =>
    { structName := rootName, fields := [], nestedStructs := []
      error := some ("JSON 解析错误".data) }
  | some (JValue.jobj entries) =>
    let r := inferObject entries []
    { structName := rootName, fields := r.1, nestedStructs := r.2.1, error := none }
  | some _ =>
    { structName := rootName, fields := [], nestedStructs := []
      error := some ("JSON root must be an object".data) }

/-- Add Protocol Buffer metadata to a field list, from
addProtobufMetadata: sequential field numbers starting at the given start
number, the repeated flag for slice types, and the element type with the
slice brackets stripped. -/
def addProtobufMetadata : List PField → Nat → List PField
  | [], _ => []
  | f :: tl, fieldNumber =>
    let isRep := List.isPrefixOf ("[]".data) f.goType
    { f with
        protoFieldNumber := fieldNumber
        isRepeated := isRep
        protoElementType := if isRep then f.goType.drop 2 else f.goType } ::
      addProtobufMetadata tl (fieldNumber + 1)

/-- Parse JSON for Protocol Buffer generation, from parseJSONForProtobuf:
reuse parseJSON, return errors unchanged, then number the top-level fields
from 1 and the fields of every nested struct from 1. -/
def parseJSONForProtobuf (decode : Str → Option JValue) (jsonStr : Str)
    (messageName : Str) : ParsedJSON :=
  let result := parseJSON decode jsonStr messageName
  if result.error.isSome then result
  else
    { result with
        fields := addProtobufMetadata result.fields 1
        nestedStructs := result.nestedStructs.map
          (fun ns => { ns with fields := addProtobufMetadata ns.fields 1 }) }

/-- The decoded value of the C6 witness: an object with a number field and
a nested object field. -/
def c6Sample : JValue :=
  JValue.jobj
    (JObject.cons ("a".data) (JValue.jnum true)
      (JObject.cons ("b".data)
        (JValue.jobj (JObject.cons ("c".data) (JValue.jstr ("x".data)) JObject.nil))
        JObject.nil))

/-- The decode oracle of the C6 witness, standing for JSON.parse. -/
def c6Decode : Str → Option JValue := fun _ => some c6Sample

/-- C1.  The claim says the Protocol Buffer generator converts each
emitted field name to snake case.  The code defines toSnakeCase but never
calls it: generateMessage emits the raw jsonName (falling back to name),
so the camel-case JSON key userName appears verbatim in the message body
while toSnakeCase would have produced user_name.  This theorem evaluates
the generator at that failing input: the output contains userName and not
user_name, the message name stays PascalCase, and toSnakeCase itself maps
userName to user_name. -/
theorem c1_snake_case_never_applied :
    generateMessage 2 c1Input defaultGenOptions =
      ("// User message\nmessage User \x7b\n  string userName = 1;\n\x7d\n".data) ∧
    List.IsInfix ("userName".data) (generateMessage 2 c1Input defaultGenOptions) ∧
    ¬ List.IsInfix ("user_name".data) (generateMessage 2 c1Input defaultGenOptions) ∧
    List.IsInfix ("message User".data) (generateMessage 2 c1Input defaultGenOptions) ∧
    toSnakeCase ("userName".data) = ("user_name".data) := by
  refine ⟨by decide, by decide, by decide, by decide, by decide⟩

theorem charToNat_ofNat {n : Nat} (h : n.isValidChar) : (Char.ofNat n).toNat = n := by
  unfold Char.ofNat
  rw [dif_pos h]
  rfl

theorem lcChar_eq_space {c : Char} (h : lcChar c = ' ') : c = ' ' := by
  unfold lcChar at h
  split_ifs at h with h1
  · exfalso
    obtain ⟨hA, hZ⟩ := h1
    have hA2 : 65 ≤ c.toNat := hA
    have hZ2 : c.toNat ≤ 90 := hZ
    have hv : (c.toNat + 32).isValidChar := by
      left
      omega
    have h2 := congrArg Char.toNat h
    rw [charToNat_ofNat hv] at h2
    have hsp : Char.toNat (' ') = 32 := by decide
    rw [hsp] at h2
    omega
  · exact h

theorem lcChar_space : lcChar (' ') = ' ' := by decide

theorem isPrefixCI_append : ∀ (p q s : Str), isPrefixCI (p ++ q) s = true →
    ∃ r, afterCI p s = some r ∧ isPrefixCI q r = true := by
  intro p
  induction p with
  | nil => intro q s h; exact ⟨s, rfl, h⟩
  | cons a pt ih =>
    intro q s h
    cases s with
    | nil => simp [isPrefixCI] at h
    | cons c ct =>
      simp only [List.cons_append, isPrefixCI, Bool.and_eq_true] at h
      obtain ⟨hb, hrest⟩ := h
      obtain ⟨r, hr1, hr2⟩ := ih q ct hrest
      exact ⟨r, by simp [afterCI, hb, hr1], hr2⟩

theorem isSpace_false_of_lc_t {c : Char} (h : lcChar c = 't') : isSpace c = false := by
  by_contra hsp
  have hsp2 : isSpace c = true := by
    cases hx : isSpace c
    · exact absurd hx hsp
    · rfl
  simp only [isSpace, Bool.or_eq_true, decide_eq_true_eq] at hsp2
  have hc : c = ' ' ∨ c = '\t' ∨ c = '\n' ∨ c = '\r' := by tauto
  rcases hc with h1 | h1 | h1 | h1 <;> subst h1 <;> exact absurd h (by decide)

theorem createTableAt_of_contains {s : Str} :
    isPrefixCI ("create table".data) s = true → createTableAt s = true := by
  intro h
  have hsplit : ("create table".data : Str) = ("create".data) ++ (' ' :: ("table".data)) := by
    decide
  rw [hsplit] at h
  obtain ⟨r, hr1, hr2⟩ := isPrefixCI_append ("create".data) (' ' :: ("table".data)) s h
  cases r with
  | nil => simp [isPrefixCI] at hr2
  | cons c2 r2 =>
    simp only [isPrefixCI, Bool.and_eq_true] at hr2
    obtain ⟨hb, htab⟩ := hr2
    have hc2 : c2 = ' ' := by
      apply lcChar_eq_space
      have h2 := eq_of_beq hb
      rw [lcChar_space] at h2
      exact h2.symm
    subst hc2
    cases r2 with
    | nil => simp [isPrefixCI] at htab
    | cons c3 r3 =>
      simp only [isPrefixCI, Bool.and_eq_true] at htab
      obtain ⟨hb3, htab3⟩ := htab
      have hc3 : lcChar c3 = 't' := by
        have h3 := eq_of_beq hb3
        rw [show lcChar ('t') = 't' from by decide] at h3
        exact h3.symm
      have hns : isSpace c3 = false := isSpace_false_of_lc_t hc3
      unfold createTableAt
      rw [hr1]
      show (isSpace (' ') &&
        isPrefixCI ("table".data) (List.dropWhile (fun d => isSpace d) (c3 :: r3))) = true
      rw [List.dropWhile_cons]
      simp only [hns, Bool.false_eq_true, if_false]
      simp only [isPrefixCI, Bool.and_eq_true]
      exact ⟨by decide, hb3, htab3⟩

theorem hasCreateTable_of_contains : ∀ tr : Str,
    hasSubCI ("create table".data) tr = true → hasCreateTable tr = true := by
  intro tr
  induction tr with
  | nil => intro h; exact absurd h (by decide)
  | cons c tl ih =>
    intro h
    simp only [hasSubCI, Bool.or_eq_true] at h
    unfold hasCreateTable
    simp only [scanAny, Bool.or_eq_true]
    rcases h with h | h
    · exact Or.inl (createTableAt_of_contains h)
    · exact Or.inr (ih h)

/-- C7.  For every input whose trimmed text contains CREATE TABLE
case-insensitively and for every model of the JSON.parse builtin, the
detector follows the fixed marker cascade: postgresql on a PostgreSQL
marker, else mysql on a MySQL marker, else sqlite on AUTOINCREMENT, else
mysql; consequently it returns one of the three SQL dialects and never
json, yaml, toml, xml or unknown. -/
theorem c7_detector_ddl_cascade (jsonObjCheck : Str → Bool) (input : Str)
    (hsub : hasSubCI ("create table".data) (trimStr input) = true) :
    detectInputType jsonObjCheck input =
      (if pgMarker (trimStr input) then "postgresql".data
       else if mysqlMarker (trimStr input) then "mysql".data
       else if sqliteMarker (trimStr input) then "sqlite".data
       else "mysql".data) ∧
    (detectInputType jsonObjCheck input = ("postgresql".data) ∨
      detectInputType jsonObjCheck input = ("mysql".data) ∨
      detectInputType jsonObjCheck input = ("sqlite".data)) := by
  have h : hasCreateTable (trimStr input) = true :=
    hasCreateTable_of_contains (trimStr input) hsub
  constructor
  · simp only [detectInputType, h, if_true]
  · simp only [detectInputType, h, if_true]
    by_cases h1 : pgMarker (trimStr input) <;> by_cases h2 : mysqlMarker (trimStr input) <;>
      by_cases h3 : sqliteMarker (trimStr input) <;> simp [h1, h2, h3]

/-- Witness for C7 at a concrete PostgreSQL-flavoured DDL text. -/
theorem c7_detector_ddl_cascade_witness :
    hasSubCI ("create table".data)
      (trimStr ("CREATE TABLE t (id SERIAL PRIMARY KEY)".data)) = true ∧
    detectInputType (fun _ => false) ("CREATE TABLE t (id SERIAL PRIMARY KEY)".data) =
      ("postgresql".data) := by
  refine ⟨by decide, ?_⟩
  have h := c7_detector_ddl_cascade (fun _ => false)
    ("CREATE TABLE t (id SERIAL PRIMARY KEY)".data) (by decide)
  rw [h.1]
  decide

theorem checkNewColumns_eq (tn : Str) (tf : List SqlField) (sf : List SqlField) :
    ∀ st : List Str, checkNewColumns tn tf sf st = st ++ addStatements tn tf sf := by
  induction sf with
  | nil => intro st; simp [checkNewColumns, addStatements]
  | cons f tl ih =>
    intro st
    have h1 : checkNewColumns tn tf (f :: tl) st =
        checkNewColumns tn tf tl
          (if (lcNames tf).contains (lcStr f.name) then st else st ++ [mkAdd tn f]) := rfl
    rw [h1, ih]
    by_cases h : lcStr f.name ∈ lcNames tf <;>
      simp [addStatements, addFun, List.filterMap_cons, h]

theorem checkModifiedColumns_eq (tn : Str) (tf : List SqlField) (sf : List SqlField) :
    ∀ st : List Str, checkModifiedColumns tn tf sf st = st ++ modifyStatements tn tf sf := by
  induction sf with
  | nil => intro st; simp [checkModifiedColumns, modifyStatements]
  | cons f tl ih =>
    intro st
    have h1 : checkModifiedColumns tn tf (f :: tl) st =
        checkModifiedColumns tn tf tl
          (match mapGet tf (lcStr f.name) with
           | some tF => if isDifferent tF f then st ++ [mkModify tn f] else st
           | none => st) := rfl
    rw [h1, ih]
    cases hget : mapGet tf (lcStr f.name) with
    | none => simp [modifyStatements, modifyFun, List.filterMap_cons, hget]
    | some tF =>
      by_cases hd : isDifferent tF f <;>
        simp [modifyStatements, modifyFun, List.filterMap_cons, hget, hd]

theorem checkRemovedColumns_eq (tn : Str) (tf sf : List SqlField) :
    ∀ st : List Str, checkRemovedColumns tn tf sf st = st ++ dropStatements tn tf sf := by
  induction tf with
  | nil => intro st; simp [checkRemovedColumns, dropStatements]
  | cons f tl ih =>
    intro st
    have h1 : checkRemovedColumns tn (f :: tl) sf st =
        checkRemovedColumns tn tl sf
          (if (lcNames sf).contains (lcStr f.name) then st else st ++ [mkDrop tn f]) := rfl
    rw [h1, ih]
    by_cases h : lcStr f.name ∈ lcNames sf <;>
      simp [dropStatements, dropFun, List.filterMap_cons, h]

/-- One generateDiff call on two parseable inputs returns the declarative
statement list, or the no-op comment when it is empty. -/
theorem generateDiff_parsed (st : List Str) (t s : Str) (target source : SqlSchema)
    (ht : parseDDL t = some target) (hs : parseDDL s = some source) :
    generateDiff st t s =
      (if diffStatements target source = [] then ([], [noopMsg])
       else (diffStatements target source, diffStatements target source)) := by
  unfold generateDiff
  rw [ht, hs]
  simp only [checkNewColumns_eq, checkModifiedColumns_eq, checkRemovedColumns_eq]
  have hh : (if target.tableName != source.tableName then
      ([] : List Str) ++ [mismatchMsg1 target source, mismatchMsg2 target] else []) =
      headerComments target source := by
    by_cases h : target.tableName != source.tableName <;> simp [headerComments, h]
  rw [hh]
  simp only [diffStatements, List.append_assoc, List.append_eq_nil]
  split <;> simp_all

theorem parseDDL_some {d : Str} {sch : SqlSchema} (h : parseDDL d = some sch) :
    parseMySQLDDL d = some sch := by
  unfold parseDDL at h
  split at h
  · exact Option.noConfusion h
  · exact h

theorem dedupeFields_spec : ∀ (l : List SqlField) (seen : List Str),
    List.Pairwise (fun a b => lcStr a.name ≠ lcStr b.name) (dedupeFields l seen) ∧
      ∀ f ∈ dedupeFields l seen, lcStr f.name ∉ seen := by
  intro l
  induction l with
  | nil => intro seen; exact ⟨List.Pairwise.nil, by simp [dedupeFields]⟩
  | cons f tl ih =>
    intro seen
    by_cases h : lcStr f.name ∈ seen
    · have hd : dedupeFields (f :: tl) seen = dedupeFields tl seen := by
        simp [dedupeFields, h]
      rw [hd]; exact ih seen
    · have hd : dedupeFields (f :: tl) seen = f :: dedupeFields tl (lcStr f.name :: seen) := by
        simp [dedupeFields, h]
      rw [hd]
      obtain ⟨hpw, hseen⟩ := ih (lcStr f.name :: seen)
      refine ⟨List.Pairwise.cons ?_ hpw, ?_⟩
      · intro b hb
        have hnb := hseen b hb
        simp only [List.mem_cons, not_or] at hnb
        exact fun he => hnb.1 he.symm
      · intro g hg
        rcases List.mem_cons.mp hg with rfl | hg2
        · exact h
        · have hng := hseen g hg2
          simp only [List.mem_cons, not_or] at hng
          exact hng.2

theorem mem_dedupeFields : ∀ (l : List SqlField) (seen : List Str) (f : SqlField),
    f ∈ dedupeFields l seen → f ∈ l := by
  intro l
  induction l with
  | nil => intro seen f h; simp [dedupeFields] at h
  | cons g tl ih =>
    intro seen f h
    by_cases hc : lcStr g.name ∈ seen
    · have hd : dedupeFields (g :: tl) seen = dedupeFields tl seen := by simp [dedupeFields, hc]
      rw [hd] at h
      exact List.mem_cons_of_mem g (ih seen f h)
    · have hd : dedupeFields (g :: tl) seen = g :: dedupeFields tl (lcStr g.name :: seen) := by
        simp [dedupeFields, hc]
      rw [hd] at h
      rcases List.mem_cons.mp h with rfl | h2
      · exact List.mem_cons_self f tl
      · exact List.mem_cons_of_mem g (ih _ f h2)

theorem parseColumn_tickfree {chunk : Str} {f : SqlField} (h : parseColumn chunk = some f) :
    btick ∉ f.name := by
  simp only [parseColumn] at h
  split_ifs at h
  have hf := Option.some.inj h
  intro hmem
  rw [← hf] at hmem
  simp only [stripTicks, List.mem_filter, decide_eq_true_eq] at hmem
  exact hmem.2 rfl

theorem parse_invariants {d : Str} {sch : SqlSchema} (h : parseMySQLDDL d = some sch) :
    List.Pairwise (fun a b => lcStr a.name ≠ lcStr b.name) sch.fields ∧
      ∀ f ∈ sch.fields, btick ∉ f.name := by
  unfold parseMySQLDDL at h
  cases hf : findCreateTable d with
  | none => rw [hf] at h; exact Option.noConfusion h
  | some aft =>
    rw [hf] at h
    simp only at h
    split at h
    · split at h
      · exact Option.noConfusion h
      · have hsch := Option.some.inj h
        rw [← hsch]
        refine ⟨(dedupeFields_spec _ []).1, ?_⟩
        intro f hmem
        have hmem2 := mem_dedupeFields _ [] f hmem
        obtain ⟨chunk, _, hcol⟩ := List.mem_filterMap.mp hmem2
        exact parseColumn_tickfree hcol
    · exact Option.noConfusion h

theorem filter_name_eq {fields : List SqlField} {f : SqlField}
    (hpw : List.Pairwise (fun a b => lcStr a.name ≠ lcStr b.name) fields)
    (hf : f ∈ fields) :
    fields.filter (fun g => lcStr g.name == lcStr f.name) = [f] := by
  induction fields with
  | nil => cases hf
  | cons g tl ih =>
    obtain ⟨hg, hpw2⟩ := List.pairwise_cons.mp hpw
    rcases List.mem_cons.mp hf with rfl | hmem
    · have htl : tl.filter (fun b => lcStr b.name == lcStr f.name) = [] := by
        apply List.filter_eq_nil_iff.mpr
        intro b hb
        simp only [beq_iff_eq]
        exact fun he => (hg b hb) he.symm
      simp [List.filter_cons, htl]
    · have hne : (lcStr g.name == lcStr f.name) = false :=
        beq_eq_false_iff_ne.mpr (hg f hmem)
      simp only [List.filter_cons, hne, Bool.false_eq_true, if_false]
      exact ih hpw2 hmem

theorem mapGet_self {fields : List SqlField} {f : SqlField}
    (hpw : List.Pairwise (fun a b => lcStr a.name ≠ lcStr b.name) fields)
    (hf : f ∈ fields) :
    mapGet fields (lcStr f.name) = some f := by
  unfold mapGet
  rw [filter_name_eq hpw hf]
  exact List.getLast?_singleton f

theorem pairwise_name_inj {l : List SqlField} {a b : SqlField}
    (hpw : List.Pairwise (fun x y => lcStr x.name ≠ lcStr y.name) l)
    (ha : a ∈ l) (hb : b ∈ l) (h : lcStr a.name = lcStr b.name) : a = b := by
  by_contra hne
  have hsymm : Symmetric (fun x y : SqlField => lcStr x.name ≠ lcStr y.name) :=
    fun _ _ hxy h2 => hxy h2.symm
  exact List.Pairwise.forall hsymm hpw ha hb hne h

theorem mkAdd_ne_mkModify (tn : Str) (f g : SqlField) : mkAdd tn f ≠ mkModify tn g := by
  intro h
  unfold mkAdd mkModify at h
  simp only [List.append_assoc] at h
  have h2 := List.append_cancel_left (List.append_cancel_left h)
  have h3 : (some 'A' : Option Char) = some 'M' := congrArg thirdChar h2
  exact absurd h3 (by decide)

theorem mkDrop_ne_mkModify (tn : Str) (f g : SqlField) : mkDrop tn f ≠ mkModify tn g := by
  intro h
  unfold mkDrop mkModify at h
  simp only [List.append_assoc] at h
  have h2 := List.append_cancel_left (List.append_cancel_left h)
  have h3 : (some 'D' : Option Char) = some 'M' := congrArg thirdChar h2
  exact absurd h3 (by decide)

theorem append_btick_inj : ∀ {a b x y : Str}, btick ∉ a → btick ∉ b →
    a ++ btick :: x = b ++ btick :: y → a = b ∧ x = y := by
  intro a
  induction a with
  | nil =>
    intro b x y _ hb h
    cases b with
    | nil => simpa using h
    | cons d bt =>
      simp only [List.nil_append, List.cons_append, List.cons.injEq] at h
      exact absurd (h.1 ▸ List.mem_cons_self d bt) hb
  | cons c ta ih =>
    intro b x y ha hb h
    cases b with
    | nil =>
      simp only [List.nil_append, List.cons_append, List.cons.injEq] at h
      exact absurd (h.1.symm ▸ List.mem_cons_self c ta) ha
    | cons d bt =>
      simp only [List.cons_append, List.cons.injEq] at h
      have ha2 : btick ∉ ta := fun hm => ha (List.mem_cons_of_mem c hm)
      have hb2 : btick ∉ bt := fun hm => hb (List.mem_cons_of_mem d hm)
      obtain ⟨h1, h2⟩ := ih ha2 hb2 h.2
      exact ⟨by rw [h.1, h1], h2⟩

theorem mkModify_name_inj {tn : Str} {f g : SqlField}
    (hf : btick ∉ f.name) (hg : btick ∉ g.name)
    (h : mkModify tn f = mkModify tn g) : f.name = g.name := by
  unfold mkModify at h
  simp only [List.append_assoc] at h
  have h3 := List.append_cancel_left (List.append_cancel_left (List.append_cancel_left h))
  have h4 : f.name ++ btick :: (' ' :: (reconstructDefinition f ++ (";".data))) =
      g.name ++ btick :: (' ' :: (reconstructDefinition g ++ (";".data))) := h3
  exact (append_btick_inj hf hg h4).1

/-- Membership of the MODIFY COLUMN statement of a matched source field in
the returned list, characterized by the isDifferent comparison. -/
theorem mem_generateDiff_modify (st : List Str) (t s : Str) (target source : SqlSchema)
    (sField tField : SqlField)
    (ht : parseDDL t = some target) (hs : parseDDL s = some source)
    (hmem : sField ∈ source.fields)
    (hlook : mapGet target.fields (lcStr sField.name) = some tField) :
    (mkModify target.tableName sField ∈ (generateDiff st t s).2) ↔
      isDifferent tField sField = true := by
  obtain ⟨hspw, hstick⟩ := parse_invariants (parseDDL_some hs)
  rw [generateDiff_parsed st t s target source ht hs]
  by_cases hnil : diffStatements target source = []
  · rw [if_pos hnil]
    constructor
    · intro hm
      have heq := List.mem_singleton.mp hm
      have hA : (some 'A' : Option Char) = some '-' := congrArg headChar heq
      exact absurd hA (by decide)
    · intro hdiff
      exfalso
      have hmods : modifyStatements target.tableName target.fields source.fields = [] := by
        have h0 := hnil
        simp only [diffStatements, List.append_assoc, List.append_eq_nil] at h0
        exact h0.2.2.1
      have h1 := (List.filterMap_eq_nil_iff.mp hmods) sField hmem
      simp only [modifyFun, hlook, hdiff, if_true] at h1
      exact Option.noConfusion h1
  · rw [if_neg hnil]
    simp only [diffStatements, List.mem_append]
    constructor
    · rintro (((hh | hh) | hh) | hh)
      · exfalso
        by_cases hbne : target.tableName != source.tableName
        · simp only [headerComments, hbne, if_true, List.mem_cons, List.not_mem_nil,
            or_false] at hh
          rcases hh with heq | heq
          · have hA : (some 'A' : Option Char) = some '-' := congrArg headChar heq
            exact absurd hA (by decide)
          · have hA : (some 'A' : Option Char) = some '-' := congrArg headChar heq
            exact absurd hA (by decide)
        · simp only [headerComments, hbne, if_false] at hh
          simp at hh
      · exfalso
        obtain ⟨g, _, hg⟩ := List.mem_filterMap.mp hh
        simp only [addFun] at hg
        split at hg
        · exact Option.noConfusion hg
        · exact mkAdd_ne_mkModify _ g sField (Option.some.inj hg)
      · obtain ⟨g, hgmem, hg⟩ := List.mem_filterMap.mp hh
        simp only [modifyFun] at hg
        cases hget : mapGet target.fields (lcStr g.name) with
        | none => rw [hget] at hg; exact Option.noConfusion hg
        | some tFg =>
          rw [hget] at hg
          by_cases hd : isDifferent tFg g = true
          · simp only [hd, if_true, Option.some.injEq] at hg
            have heq := hg
            have hname : g.name = sField.name :=
              mkModify_name_inj (hstick g hgmem) (hstick sField hmem) heq
            have hgs : g = sField :=
              pairwise_name_inj hspw hgmem hmem (by rw [hname])
            rw [hgs] at hget
            rw [hget] at hlook
            rw [← Option.some.inj hlook]
            rw [hgs] at hd
            exact hd
          · simp [hd] at hg
      · exfalso
        obtain ⟨g, _, hg⟩ := List.mem_filterMap.mp hh
        simp only [dropFun] at hg
        split at hg
        · exact Option.noConfusion hg
        · exact mkDrop_ne_mkModify _ g sField (Option.some.inj hg)
    · intro hdiff
      refine (Or.inl (Or.inr ?_))
      apply List.mem_filterMap.mpr
      exact ⟨sField, hmem, by simp [modifyFun, hlook, hdiff]⟩

/-- C3.  Diffing a parseable DDL against itself returns exactly the single
no-op comment, hence no ADD, MODIFY or DROP statement. -/
theorem c3_self_diff_noop (st : List Str) (d : Str) (schema : SqlSchema)
    (h : parseDDL d = some schema) :
    (generateDiff st d d).2 = [noopMsg] := by
  obtain ⟨hpw, _⟩ := parse_invariants (parseDDL_some h)
  rw [generateDiff_parsed st d d schema schema h h]
  have hnil : diffStatements schema schema = [] := by
    have hheader : headerComments schema schema = [] := by
      simp [headerComments]
    have hadds : addStatements schema.tableName schema.fields schema.fields = [] := by
      apply List.filterMap_eq_nil_iff.mpr
      intro f hf
      have : lcStr f.name ∈ lcNames schema.fields :=
        List.mem_map.mpr ⟨f, hf, rfl⟩
      simp [addFun, this]
    have hmods : modifyStatements schema.tableName schema.fields schema.fields = [] := by
      apply List.filterMap_eq_nil_iff.mpr
      intro f hf
      have hget := mapGet_self hpw hf
      have hdself : isDifferent f f = false := by
        simp [isDifferent]
      simp [modifyFun, hget, hdself]
    have hdrops : dropStatements schema.tableName schema.fields schema.fields = [] := by
      apply List.filterMap_eq_nil_iff.mpr
      intro f hf
      have : lcStr f.name ∈ lcNames schema.fields :=
        List.mem_map.mpr ⟨f, hf, rfl⟩
      simp [dropFun, this]
    simp [diffStatements, hheader, hadds, hmods, hdrops]
  rw [if_pos hnil]

/-- Witness for C3 at a concrete parseable DDL. -/
theorem c3_self_diff_noop_witness :
    parseDDL c3Ddl = some c3Schema ∧ (generateDiff [] c3Ddl c3Ddl).2 = [noopMsg] := by
  refine ⟨by decide, c3_self_diff_noop [] c3Ddl c3Schema (by decide)⟩

/-- C4.  For every pair of parseable DDLs the returned list is the leading
table-name comments (empty when the names agree), then all ADD COLUMN
statements in source field order, then all MODIFY COLUMN statements in
source field order, then all DROP COLUMN statements in target field order;
when that whole list is empty the single no-op comment is returned
instead. -/
theorem c4_statement_order (st : List Str) (t s : Str) (target source : SqlSchema)
    (ht : parseDDL t = some target) (hs : parseDDL s = some source) :
    (generateDiff st t s).2 =
      (if headerComments target source ++
          addStatements target.tableName target.fields source.fields ++
          modifyStatements target.tableName target.fields source.fields ++
          dropStatements target.tableName target.fields source.fields = []
       then [noopMsg]
       else headerComments target source ++
          addStatements target.tableName target.fields source.fields ++
          modifyStatements target.tableName target.fields source.fields ++
          dropStatements target.tableName target.fields source.fields) := by
  rw [generateDiff_parsed st t s target source ht hs]
  have hassoc : headerComments target source ++
      addStatements target.tableName target.fields source.fields ++
      modifyStatements target.tableName target.fields source.fields ++
      dropStatements target.tableName target.fields source.fields =
      diffStatements target source := by
    simp [diffStatements, List.append_assoc]
  rw [hassoc]
  by_cases hnil : diffStatements target source = []
  · rw [if_pos hnil, if_pos hnil]
  · rw [if_neg hnil, if_neg hnil]

/-- Witness for C4 at the spec example: one addition then one
modification, in that order, and no removal. -/
theorem c4_statement_order_witness :
    parseDDL c4Target = some c3Schema ∧
    parseDDL c4Source = some c4SourceSchema ∧
    (generateDiff [] c4Target c4Source).2 =
      (if headerComments c3Schema c4SourceSchema ++
          addStatements c3Schema.tableName c3Schema.fields c4SourceSchema.fields ++
          modifyStatements c3Schema.tableName c3Schema.fields c4SourceSchema.fields ++
          dropStatements c3Schema.tableName c3Schema.fields c4SourceSchema.fields = []
       then [noopMsg]
       else headerComments c3Schema c4SourceSchema ++
          addStatements c3Schema.tableName c3Schema.fields c4SourceSchema.fields ++
          modifyStatements c3Schema.tableName c3Schema.fields c4SourceSchema.fields ++
          dropStatements c3Schema.tableName c3Schema.fields c4SourceSchema.fields) := by
  refine ⟨by decide, by decide, ?_⟩
  exact c4_statement_order [] c4Target c4Source c3Schema c4SourceSchema (by decide) (by decide)

/-- C5.  A source field matched case-insensitively in the target produces
a MODIFY COLUMN statement in the returned list exactly when the two
matched fields differ in the case-insensitive type string, the nullable
flag, the auto-increment flag, or the comment with absence read as the
empty string. -/
theorem c5_modify_iff (st : List Str) (t s : Str) (target source : SqlSchema)
    (sField tField : SqlField)
    (ht : parseDDL t = some target) (hs : parseDDL s = some source)
    (hmem : sField ∈ source.fields)
    (hlook : mapGet target.fields (lcStr sField.name) = some tField) :
    (mkModify target.tableName sField ∈ (generateDiff st t s).2) ↔
      (lcStr tField.type ≠ lcStr sField.type ∨
        tField.nullable ≠ sField.nullable ∨
        tField.isAutoIncrement ≠ sField.isAutoIncrement ∨
        commentOrEmpty tField ≠ commentOrEmpty sField) := by
  rw [mem_generateDiff_modify st t s target source sField tField ht hs hmem hlook]
  simp [isDifferent, bne_iff_ne, or_assoc]

/-- Witness for C5: the name column changes type from VARCHAR(50) to
VARCHAR(100), so its MODIFY COLUMN statement is in the returned list. -/
theorem c5_modify_iff_witness :
    parseDDL c4Target = some c5TargetSchema ∧
    parseDDL c4Source = some c4SourceSchema ∧
    (c4SourceSchema.fields.get ⟨1, by decide⟩) ∈ c4SourceSchema.fields ∧
    mapGet c5TargetSchema.fields (lcStr (c4SourceSchema.fields.get ⟨1, by decide⟩).name) =
      some (c5TargetSchema.fields.get ⟨1, by decide⟩) ∧
    (mkModify c5TargetSchema.tableName (c4SourceSchema.fields.get ⟨1, by decide⟩) ∈
      (generateDiff [] c4Target c4Source).2) := by
  refine ⟨by decide, by decide, by decide, by decide, ?_⟩
  refine (c5_modify_iff [] c4Target c4Source c5TargetSchema c4SourceSchema
    (c4SourceSchema.fields.get ⟨1, by decide⟩) (c5TargetSchema.fields.get ⟨1, by decide⟩)
    (by decide) (by decide) (by decide) (by decide)).mpr ?_
  left
  decide

/-- C10.  When two matched fields agree on the type, the nullable flag,
the auto-increment flag and the comment but differ in the isUnsigned flag,
the engine emits no MODIFY COLUMN statement for that field, although
reconstructDefinition renders the UNSIGNED keyword for whichever of the
two fields is unsigned. -/
theorem c10_unsigned_ignored (st : List Str) (t s : Str) (target source : SqlSchema)
    (sField tField : SqlField)
    (ht : parseDDL t = some target) (hs : parseDDL s = some source)
    (hmem : sField ∈ source.fields)
    (hlook : mapGet target.fields (lcStr sField.name) = some tField)
    (htype : tField.type = sField.type) (hnull : tField.nullable = sField.nullable)
    (hai : tField.isAutoIncrement = sField.isAutoIncrement)
    (hcom : tField.comment = sField.comment)
    (huns : tField.isUnsigned ≠ sField.isUnsigned) :
    (mkModify target.tableName sField ∉ (generateDiff st t s).2) ∧
    (sField.isUnsigned = true ∨ tField.isUnsigned = true) ∧
    (sField.isUnsigned = true →
      List.IsInfix (" UNSIGNED".data) (reconstructDefinition sField)) ∧
    (tField.isUnsigned = true →
      List.IsInfix (" UNSIGNED".data) (reconstructDefinition tField)) := by
  have hnd : isDifferent tField sField = false := by
    simp [isDifferent, htype, hnull, hai, commentOrEmpty, hcom]
  refine ⟨?_, ?_, ?_, ?_⟩
  · intro hm
    have := (mem_generateDiff_modify st t s target source sField tField ht hs hmem hlook).mp hm
    rw [hnd] at this
    exact Bool.noConfusion this
  · cases hsu : sField.isUnsigned with
    | true => exact Or.inl rfl
    | false =>
      cases htu : tField.isUnsigned with
      | true => exact Or.inr rfl
      | false => exact absurd (htu.trans hsu.symm) huns
  · intro hu
    refine ⟨sField.type, ?_, ?_⟩
    exact (if !sField.nullable then (" NOT NULL".data) else []) ++
      (if sField.isAutoIncrement then (" AUTO_INCREMENT".data) else []) ++
      (if commentOrEmpty sField ≠ [] then
        (" COMMENT '".data) ++ commentOrEmpty sField ++ ("'".data) else [])
    simp [reconstructDefinition, hu, List.append_assoc]
  · intro hu
    refine ⟨tField.type, ?_, ?_⟩
    exact (if !tField.nullable then (" NOT NULL".data) else []) ++
      (if tField.isAutoIncrement then (" AUTO_INCREMENT".data) else []) ++
      (if commentOrEmpty tField ≠ [] then
        (" COMMENT '".data) ++ commentOrEmpty tField ++ ("'".data) else [])
    simp [reconstructDefinition, hu, List.append_assoc]

/-- Witness for C10: an unsigned-only change produces no statement even
though the reconstruction renders UNSIGNED. -/
theorem c10_unsigned_ignored_witness :
    parseDDL c10Target = some c10TargetSchema ∧
    parseDDL c10Source = some c10SourceSchema ∧
    (mkModify c10TargetSchema.tableName (c10SourceSchema.fields.get ⟨0, by decide⟩) ∉
      (generateDiff [] c10Target c10Source).2) ∧
    List.IsInfix (" UNSIGNED".data)
      (reconstructDefinition (c10SourceSchema.fields.get ⟨0, by decide⟩)) := by
  have h := c10_unsigned_ignored [] c10Target c10Source c10TargetSchema c10SourceSchema
    (c10SourceSchema.fields.get ⟨0, by decide⟩) (c10TargetSchema.fields.get ⟨0, by decide⟩)
    (by decide) (by decide) (by decide) (by decide) (by decide) (by decide)
    (by decide) (by decide) (by decide)
  exact ⟨by decide, by decide, h.1, h.2.2.1 (by decide)⟩

theorem headChar_of_comment_start {c : Str} (h : List.IsPrefix ("-- ".data) c) :
    headChar c = some '-' := by
  obtain ⟨r, hr⟩ := h
  rw [← hr]
  rfl

/-- C2 counterexample.  When only the target is unparseable and the source
parses, generateDiff still returns the single cannot-parse comment, so a
single explanatory comment line is returned although the claimed condition
(both schemas unparseable, or the two parsed schemas identical) is false:
the claimed equivalence fails at this input. -/
theorem c2_counterexample :
    singleCommentLine (generateDiff [] ([]) c3Ddl).2 ∧
    ¬ ((parseDDL ([]) = none ∧ parseDDL c3Ddl = none) ∨
       ∃ target source, parseDDL ([]) = some target ∧ parseDDL c3Ddl = some source ∧
         target = source) := by
  constructor
  · exact ⟨cannotParseMsg, by decide, by decide⟩
  · rintro (⟨_, h2⟩ | ⟨a, b, ha, hb, hab⟩)
    · have : parseDDL c3Ddl = some c3Schema := by decide
      rw [this] at h2
      exact Option.noConfusion h2
    · have : parseDDL ([] : Str) = none := by decide
      rw [this] at ha
      exact Option.noConfusion ha

/-- C2 as amended.  generateDiff returns a single explanatory comment line
exactly when at least one schema is unparseable, or both parse, the table
names agree and no addition, modification or removal is detected; and the
modelled function is total, so no call raises. -/
theorem c2_single_comment_iff (st : List Str) (t s : Str) :
    singleCommentLine (generateDiff st t s).2 ↔
      (parseDDL t = none ∨ parseDDL s = none ∨
        ∃ target source, parseDDL t = some target ∧ parseDDL s = some source ∧
          target.tableName = source.tableName ∧
          addStatements target.tableName target.fields source.fields = [] ∧
          modifyStatements target.tableName target.fields source.fields = [] ∧
          dropStatements target.tableName target.fields source.fields = []) := by
  cases ht : parseDDL t with
  | none =>
    constructor
    · intro _; exact Or.inl rfl
    · intro _
      have hres : (generateDiff st t s).2 = [cannotParseMsg] := by
        unfold generateDiff
        rw [ht]
      exact ⟨cannotParseMsg, by rw [hres], by decide⟩
  | some target =>
    cases hs : parseDDL s with
    | none =>
      constructor
      · intro _; exact Or.inr (Or.inl rfl)
      · intro _
        have hres : (generateDiff st t s).2 = [cannotParseMsg] := by
          unfold generateDiff
          rw [ht, hs]
        exact ⟨cannotParseMsg, by rw [hres], by decide⟩
    | some source =>
      rw [generateDiff_parsed st t s target source ht hs]
      by_cases hnil : diffStatements target source = []
      · rw [if_pos hnil]
        have hsplit := hnil
        simp only [diffStatements, List.append_assoc, List.append_eq_nil] at hsplit
        obtain ⟨hh, ha, hm, hd⟩ := hsplit
        have hnames : target.tableName = source.tableName := by
          by_cases hb : target.tableName != source.tableName
          · exfalso
            simp only [headerComments, hb, if_true] at hh
            exact List.noConfusion hh
          · exact eq_of_beq (by simpa using hb)
        constructor
        · intro _
          exact Or.inr (Or.inr ⟨target, source, rfl, rfl, hnames, ha, hm, hd⟩)
        · intro _
          exact ⟨noopMsg, rfl, by decide⟩
      · rw [if_neg hnil]
        constructor
        · rintro ⟨c, hc, hpre⟩
          exfalso
          by_cases hb : target.tableName != source.tableName
          · have hlen := congrArg List.length hc
            simp only [diffStatements, headerComments, hb, if_true, List.length_append,
              List.length_cons, List.length_singleton] at hlen
            omega
          · have hh0 : headerComments target source = [] := by
              simp [headerComments, hb]
            have hc2 : addStatements target.tableName target.fields source.fields ++
                (modifyStatements target.tableName target.fields source.fields ++
                  dropStatements target.tableName target.fields source.fields) = [c] := by
              have := hc
              simp only [diffStatements, hh0, List.nil_append, List.append_assoc] at this
              exact this
            have hcmem : c ∈ addStatements target.tableName target.fields source.fields ++
                (modifyStatements target.tableName target.fields source.fields ++
                  dropStatements target.tableName target.fields source.fields) := by
              rw [hc2]; exact List.mem_singleton.mpr rfl
            have hhead : headChar c = some '-' := headChar_of_comment_start hpre
            rcases List.mem_append.mp hcmem with hma | hmd
            · obtain ⟨g, _, hg⟩ := List.mem_filterMap.mp hma
              simp only [addFun] at hg
              split at hg
              · exact Option.noConfusion hg
              · rw [← Option.some.inj hg] at hhead
                have : (some 'A' : Option Char) = some '-' := hhead
                exact absurd this (by decide)
            · rcases List.mem_append.mp hmd with hmm | hmdd
              · obtain ⟨g, _, hg⟩ := List.mem_filterMap.mp hmm
                simp only [modifyFun] at hg
                cases hget : mapGet target.fields (lcStr g.name) with
                | none => rw [hget] at hg; exact Option.noConfusion hg
                | some tFg =>
                  rw [hget] at hg
                  by_cases hdg : isDifferent tFg g = true
                  · simp only [hdg, if_true, Option.some.injEq] at hg
                    rw [← hg] at hhead
                    have : (some 'A' : Option Char) = some '-' := hhead
                    exact absurd this (by decide)
                  · simp [hdg] at hg
              · obtain ⟨g, _, hg⟩ := List.mem_filterMap.mp hmdd
                simp only [dropFun] at hg
                split at hg
                · exact Option.noConfusion hg
                · rw [← Option.some.inj hg] at hhead
                  have : (some 'A' : Option Char) = some '-' := hhead
                  exact absurd this (by decide)
        · rintro (h0 | h0 | ⟨a, b, ha, hb, hnames, hadds, hmods, hdrops⟩)
          · exact Option.noConfusion h0
          · exact Option.noConfusion h0
          · exfalso
            have hae : a = target := (Option.some.inj ha).symm
            have hbe : b = source := (Option.some.inj hb).symm
            rw [hae, hbe] at hnames hadds hmods hdrops
            apply hnil
            have hh0 : headerComments target source = [] := by
              simp [headerComments, hnames]
            simp [diffStatements, hh0, hadds, hmods, hdrops]

/-- C8.  generateDiff is deterministic and retains no observable state
across invocations: the returned list does not depend on the statements
field the shared engine instance carries at entry (it is reset there), and
in any sequence of calls on the shared instance every call returns exactly
what a call on a fresh instance would return, regardless of the calls made
before it. -/
theorem c8_engine_stateless :
    (∀ (st1 st2 : List Str) (t s : Str),
      (generateDiff st1 t s).2 = (generateDiff st2 t s).2) ∧
    (∀ (st : List Str) (calls : List (Str × Str)),
      runDiffCalls st calls =
        calls.map (fun p => (generateDiff diffEngineInit p.1 p.2).2)) := by
  have hstate : ∀ (st1 st2 : List Str) (t s : Str),
      generateDiff st1 t s = generateDiff st2 t s := fun _ _ _ _ => rfl
  refine ⟨fun st1 st2 t s => congrArg Prod.snd (hstate st1 st2 t s), ?_⟩
  intro st calls
  induction calls generalizing st with
  | nil => rfl
  | cons p tl ih =>
    obtain ⟨a, b⟩ := p
    show (generateDiff st a b).2 :: runDiffCalls (generateDiff st a b).1 tl = _
    rw [hstate st diffEngineInit a b, ih]
    rfl

theorem addProtobufMetadata_length (l : List PField) (n : Nat) :
    (addProtobufMetadata l n).length = l.length := by
  induction l generalizing n with
  | nil => rfl
  | cons f tl ih => simp [addProtobufMetadata, ih]

theorem addProtobufMetadata_map (l : List PField) :
    ∀ n, (addProtobufMetadata l n).map (fun f => f.protoFieldNumber) =
      List.range' n l.length := by
  induction l with
  | nil => intro n; rfl
  | cons f tl ih =>
    intro n
    simp only [addProtobufMetadata, List.map_cons, List.length_cons, List.range'_succ]
    rw [ih (n + 1)]

/-- C6.  After parseJSONForProtobuf succeeds, the top-level fields carry
protoFieldNumber values 1, 2, and so on to the field count in declaration
order, and the fields of every nested struct independently carry values
restarting at 1 in their own declaration order. -/
theorem c6_proto_field_numbers (decode : Str → Option JValue) (jsonStr messageName : Str)
    (h : (parseJSONForProtobuf decode jsonStr messageName).error = none) :
    ((parseJSONForProtobuf decode jsonStr messageName).fields.map
        (fun f => f.protoFieldNumber) =
      List.range' 1 (parseJSONForProtobuf decode jsonStr messageName).fields.length) ∧
    (∀ ns ∈ (parseJSONForProtobuf decode jsonStr messageName).nestedStructs,
      ns.fields.map (fun f => f.protoFieldNumber) = List.range' 1 ns.fields.length) := by
  cases hpe : (parseJSON decode jsonStr messageName).error with
  | some e =>
    exfalso
    have hif : ((parseJSON decode jsonStr messageName).error.isSome) = true := by
      rw [hpe]; rfl
    simp only [parseJSONForProtobuf, hif, if_true] at h
    rw [hpe] at h
    exact Option.noConfusion h
  | none =>
    have hif : ((parseJSON decode jsonStr messageName).error.isSome) = false := by
      rw [hpe]; rfl
    constructor
    · simp only [parseJSONForProtobuf, hif, Bool.false_eq_true, if_false]
      rw [addProtobufMetadata_map, addProtobufMetadata_length]
    · intro ns hns
      simp only [parseJSONForProtobuf, hif, Bool.false_eq_true, if_false,
        List.mem_map] at hns
      obtain ⟨ns0, _, hns0⟩ := hns
      rw [← hns0]
      simp only
      rw [addProtobufMetadata_map, addProtobufMetadata_length]

/-- Witness for C6: two top-level fields numbered 1 and 2, and the nested
struct restarts at 1. -/
theorem c6_proto_field_numbers_witness :
    (parseJSONForProtobuf c6Decode ("x".data) ("Message".data)).error = none ∧
    ((parseJSONForProtobuf c6Decode ("x".data) ("Message".data)).fields.map
      (fun f => f.protoFieldNumber) = [1, 2]) ∧
    (((parseJSONForProtobuf c6Decode ("x".data) ("Message".data)).nestedStructs.get
      ⟨0, by decide⟩).fields.map (fun f => f.protoFieldNumber) = [1]) := by
  have h := c6_proto_field_numbers c6Decode ("x".data) ("Message".data) (by decide)
  refine ⟨by decide, h.1.trans (by decide), ?_⟩
  exact (h.2 ((parseJSONForProtobuf c6Decode ("x".data) ("Message".data)).nestedStructs.get
    ⟨0, by decide⟩) (List.get_mem _ _ _)).trans (by decide)

end DevKitPro
